import Mathlib

/-!
Verification of the stateful swapping strategy
(`src/strategy/strategies/stateful_swapping.py`).

The Python module is embedded shallowly:
- Python floats become `ℚ` (the module only adds, subtracts, multiplies,
  divides and compares them);
- the three-key string dictionaries `success_rates` / `avg_pnl` (whose key
  set is fixed at construction) become a three-field structure `SideMap`;
- `time.time()` reads become explicit time arguments;
- `max(self.trades, key=lambda t: t.pnl_pct)` becomes the index of the
  first record attaining the maximal `pnl_pct` (CPython's `max` returns
  the first maximal element encountered);
- the object-identity test `all(t is not best_trade for t in kept)`
  becomes an index comparison: every element of the Python list is a
  freshly allocated record (appended once, never duplicated by
  compaction), so `best_trade` is identical to a member of
  `trades[-10:]` exactly when its index falls in the last-10 window.
-/

/-- The `TradeSide` literal type: `ETH_TO_USDC`, `USDC_TO_ETH` or `HOLD`. -/
inductive TradeSide where
  | ETH_TO_USDC
  | USDC_TO_ETH
  | HOLD
deriving DecidableEq, Repr

/-- The `TradeRecord` dataclass. -/
structure TradeRecord where
  timestamp : ℚ
  side : TradeSide
  eth_price : ℚ
  size_eth : ℚ
  pnl_pct : ℚ
deriving DecidableEq, Repr

/-- Placeholder record used as the default of `List.getD`; it is only ever
read at indices proved to be in range. -/
def dummyRecord : TradeRecord := ⟨0, TradeSide.HOLD, 0, 0, 0⟩

/-- A total map from `TradeSide` to `ℚ`, embedding the Python dicts whose
key set is exactly the three side strings. -/
structure SideMap where
  eth_to_usdc : ℚ
  usdc_to_eth : ℚ
  hold : ℚ
deriving DecidableEq, Repr

/-- Dictionary lookup `d[side]`. -/
def SideMap.get (m : SideMap) : TradeSide → ℚ
  | TradeSide.ETH_TO_USDC => m.eth_to_usdc
  | TradeSide.USDC_TO_ETH => m.usdc_to_eth
  | TradeSide.HOLD => m.hold

/-- The all-zero map, the dict default of `StrategyMemory`. -/
def SideMap.zero : SideMap := ⟨0, 0, 0⟩

/-- The `StrategyMemory` dataclass. `max_trades_kept` is a natural number
(the Python default is 100 and the spec requires it positive);
`summary_cooldown_sec` is kept as `ℚ` since it is compared against a
difference of wall-clock readings. -/
structure StrategyMemory where
  trades : List TradeRecord
  success_rates : SideMap
  avg_pnl : SideMap
  max_trades_kept : ℕ
  last_summary_at : ℚ
  summary_cooldown_sec : ℚ
deriving DecidableEq, Repr

/-- `StrategyMemory` with all dataclass defaults except `max_trades_kept`. -/
def mkMemory (max_trades_kept : ℕ) : StrategyMemory :=
  { trades := []
    success_rates := SideMap.zero
    avg_pnl := SideMap.zero
    max_trades_kept := max_trades_kept
    last_summary_at := 0
    summary_cooldown_sec := 120 }

/-- The per-side bucket `by_side[a]` built by `update_metrics`: the
`pnl_pct` values of the trades with side `a`, in log order. -/
def sidePnls (ts : List TradeRecord) (a : TradeSide) : List ℚ :=
  (ts.filter (fun t => t.side == a)).map TradeRecord.pnl_pct

/-- The two aggregates `update_metrics` derives from one bucket:
win fraction and mean (0 for the empty bucket). -/
def metricsFromList (arr : List ℚ) : ℚ × ℚ :=
  if arr.isEmpty then (0, 0)
  else (((arr.filter (fun x => decide (0 < x))).length : ℚ) / (arr.length : ℚ),
        arr.sum / (arr.length : ℚ))

/-- `StrategyMemory.update_metrics`: recompute `success_rates` and
`avg_pnl` for all three sides from scratch over `trades`. -/
def StrategyMemory.update_metrics (m : StrategyMemory) : StrategyMemory :=
  if m.trades.isEmpty then
    { m with success_rates := SideMap.zero, avg_pnl := SideMap.zero }
  else
    { m with
      success_rates :=
        ⟨(metricsFromList (sidePnls m.trades TradeSide.ETH_TO_USDC)).1,
         (metricsFromList (sidePnls m.trades TradeSide.USDC_TO_ETH)).1,
         (metricsFromList (sidePnls m.trades TradeSide.HOLD)).1⟩
      avg_pnl :=
        ⟨(metricsFromList (sidePnls m.trades TradeSide.ETH_TO_USDC)).2,
         (metricsFromList (sidePnls m.trades TradeSide.USDC_TO_ETH)).2,
         (metricsFromList (sidePnls m.trades TradeSide.HOLD)).2⟩ }

/-- Index of the record returned by
`max(self.trades, key=lambda t: t.pnl_pct)`: the first index whose
`pnl_pct` is maximal (CPython `max` keeps the current best and replaces
it only on a strictly greater key, hence returns the first maximum). -/
def firstBestIdx : List TradeRecord → ℕ
  | [] => 0
  | t :: ts =>
    if ts.isEmpty then 0
    else if (ts.getD (firstBestIdx ts) dummyRecord).pnl_pct ≤ t.pnl_pct then 0
    else firstBestIdx ts + 1

/-- `StrategyMemory.summarize_if_needed`, with the `time.time()` read
passed in as `now`. Keeps the last 10 trades plus the best trade by
`pnl_pct` when that best trade is not itself one of the last 10, then
recomputes the aggregates and stamps `last_summary_at`. -/
def StrategyMemory.summarize_if_needed (m : StrategyMemory) (now : ℚ) : StrategyMemory :=
  if m.trades.length ≤ m.max_trades_kept then m
  else if now - m.last_summary_at < m.summary_cooldown_sec then m
  else
    let recentStart := m.trades.length - 10
    let bi := firstBestIdx m.trades
    let recent := m.trades.drop recentStart
    let kept := if bi < recentStart then recent ++ [m.trades.getD bi dummyRecord] else recent
    let m' := StrategyMemory.update_metrics { m with trades := kept }
    { m' with last_summary_at := now }

/-- The `StatefulSwapStrategy` class state. `_last_price` starts as
`None`; the warmup counter and target are naturals (the spec fixes the
warmup target as an `int ≥ 0`). -/
structure StatefulSwapStrategy where
  memory : StrategyMemory
  rebalance_threshold : ℚ
  observe_cycles_before_trade : ℕ
  observed_cycles : ℕ
  last_price : Option ℚ
deriving DecidableEq, Repr

/-- `StatefulSwapStrategy.__init__`. -/
def mkStrategy (rebalance_threshold : ℚ) (observe_cycles_before_trade : ℕ)
    (max_trades_kept : ℕ) : StatefulSwapStrategy :=
  { memory := mkMemory max_trades_kept
    rebalance_threshold := rebalance_threshold
    observe_cycles_before_trade := observe_cycles_before_trade
    observed_cycles := 0
    last_price := none }

/-- `StatefulSwapStrategy.observe`: bump the warmup counter and record the
price. The volatility argument is accepted and unused, as in the source. -/
def StatefulSwapStrategy.observe (s : StatefulSwapStrategy) (eth_price : ℚ)
    (_market_volatility : Option ℚ) : StatefulSwapStrategy :=
  { s with observed_cycles := s.observed_cycles + 1, last_price := some eth_price }

/-- `StatefulSwapStrategy._market_signal`: 0 with no last price, else the
relative change against the last price (0 when that price is not
positive) clamped to [-0.02, 0.02]. -/
def StatefulSwapStrategy.market_signal (s : StatefulSwapStrategy) (eth_price : ℚ) : ℚ :=
  match s.last_price with
  | none => 0
  | some lp =>
    let delta := eth_price - lp
    let rel := if 0 < lp then delta / lp else 0
    max (min rel (2/100)) (-(2/100))

/-- The conditional expression selecting the market bias in `decide`:
the override when one is passed, `_market_signal` otherwise. -/
def StatefulSwapStrategy.market_bias (s : StatefulSwapStrategy) (eth_price : ℚ)
    (recent_market_signal : Option ℚ) : ℚ :=
  match recent_market_signal with
  | none => s.market_signal eth_price
  | some v => v

/-- `StatefulSwapStrategy.decide`, returning the chosen side together with
the updated object state. -/
def StatefulSwapStrategy.decide (s : StatefulSwapStrategy)
    (eth_price portfolio_eth portfolio_usdc : ℚ)
    (recent_market_signal : Option ℚ) : TradeSide × StatefulSwapStrategy :=
  if s.observed_cycles < s.observe_cycles_before_trade then
    (TradeSide.HOLD, { s with last_price := some eth_price })
  else
    let eth_to_usdc_score := s.memory.avg_pnl.get TradeSide.ETH_TO_USDC
    let usdc_to_eth_score := s.memory.avg_pnl.get TradeSide.USDC_TO_ETH
    let market_bias := s.market_bias eth_price recent_market_signal
    let score_buy_eth := usdc_to_eth_score + market_bias
    let score_sell_eth := eth_to_usdc_score - market_bias
    let s' := { s with last_price := some eth_price }
    if s.rebalance_threshold ≤ 0 then
      if score_buy_eth > score_sell_eth ∧ portfolio_usdc > 0 then
        (TradeSide.USDC_TO_ETH, s')
      else if score_sell_eth > score_buy_eth ∧ portfolio_eth > 0 then
        (TradeSide.ETH_TO_USDC, s')
      else (TradeSide.HOLD, s')
    else
      let diff := |score_buy_eth - score_sell_eth|
      if diff < s.rebalance_threshold then (TradeSide.HOLD, s')
      else if score_buy_eth > score_sell_eth then (TradeSide.USDC_TO_ETH, s')
      else (TradeSide.ETH_TO_USDC, s')

/-- The `pnl_pct` computed by `record_trade_outcome`. -/
def tradePnl (side : TradeSide) (entry_price exit_price : ℚ) : ℚ :=
  match side with
  | TradeSide.USDC_TO_ETH =>
      if 0 < entry_price then (exit_price - entry_price) / entry_price else 0
  | TradeSide.ETH_TO_USDC =>
      if 0 < entry_price then (entry_price - exit_price) / entry_price else 0
  | TradeSide.HOLD => 0

/-- `StatefulSwapStrategy.record_trade_outcome`, with the two
`time.time()` reads passed in: `t_rec` stamps the new record, `t_now`
is the reading `summarize_if_needed` compares against the cooldown. -/
def StatefulSwapStrategy.record_trade_outcome (s : StatefulSwapStrategy)
    (side : TradeSide) (entry_price exit_price size_eth t_rec t_now : ℚ) :
    StatefulSwapStrategy :=
  let pnl_pct := tradePnl side entry_price exit_price
  let mem1 := { s.memory with
    trades := s.memory.trades ++ [TradeRecord.mk t_rec side exit_price size_eth pnl_pct] }
  let mem2 := mem1.update_metrics
  let mem3 := mem2.summarize_if_needed t_now
  { s with memory := mem3 }

/-- States of a `StatefulSwapStrategy` reachable through its public
interface: construction, `observe`, `decide` and `record_trade_outcome`
(`performance_insights` reads and mutates nothing). -/
inductive Reachable : StatefulSwapStrategy → Prop where
  | init : ∀ th oc mk, Reachable (mkStrategy th oc mk)
  | observe : ∀ s p v, Reachable s → Reachable (s.observe p v)
  | decide : ∀ s p pe pu ov, Reachable s → Reachable (s.decide p pe pu ov).2
  | record : ∀ s side ep xp sz t1 t2, Reachable s →
      Reachable (s.record_trade_outcome side ep xp sz t1 t2)

/-! ### Specification-side definitions

These restate the spec's words, to be compared with the embedded code. -/

/-- Count of records in `ts` with side `a` (the denominator of the spec's
win fraction and mean). -/
def sideCount (ts : List TradeRecord) (a : TradeSide) : ℕ :=
  (ts.filter (fun t => t.side == a)).length

/-- Count of records in `ts` with side `a` and `pnl_pct > 0` (the spec's
win count). -/
def winCount (ts : List TradeRecord) (a : TradeSide) : ℕ :=
  ((ts.filter (fun t => t.side == a)).filter (fun t => decide (0 < t.pnl_pct))).length

/-- Sum of `pnl_pct` over records of `ts` with side `a`. -/
def sideSum (ts : List TradeRecord) (a : TradeSide) : ℚ :=
  ((ts.filter (fun t => t.side == a)).map TradeRecord.pnl_pct).sum

/-- The spec's exact success rate: win fraction over records with side
`a`, 0 when there are none. -/
def specSuccessRate (ts : List TradeRecord) (a : TradeSide) : ℚ :=
  if sideCount ts a = 0 then 0 else (winCount ts a : ℚ) / (sideCount ts a : ℚ)

/-- The spec's exact average PnL: arithmetic mean of `pnl_pct` over
records with side `a`, 0 when there are none. -/
def specAvgPnl (ts : List TradeRecord) (a : TradeSide) : ℚ :=
  if sideCount ts a = 0 then 0 else sideSum ts a / (sideCount ts a : ℚ)

/-- The spec's clamp of a value to the closed interval [-0.02, 0.02]. -/
def specClamp (x : ℚ) : ℚ :=
  if x < -(2/100) then -(2/100) else if (2/100) < x then (2/100) else x

/-- The spec's `pnl_pct` formula for `recordTradeOutcome`. -/
def specPnl (side : TradeSide) (entry_price exit_price : ℚ) : ℚ :=
  match side with
  | TradeSide.USDC_TO_ETH =>
      if entry_price ≤ 0 then 0 else (exit_price - entry_price) / entry_price
  | TradeSide.ETH_TO_USDC =>
      if entry_price ≤ 0 then 0 else (entry_price - exit_price) / entry_price
  | TradeSide.HOLD => 0

/-- Position `i` holds the record with the highest `pnl_pct` of `ts`,
with ties broken in favour of the first occurrence. -/
def IsFirstMax (ts : List TradeRecord) (i : ℕ) : Prop :=
  i < ts.length ∧
  (∀ t ∈ ts, t.pnl_pct ≤ (ts.getD i dummyRecord).pnl_pct) ∧
  (∀ j, j < i → (ts.getD j dummyRecord).pnl_pct < (ts.getD i dummyRecord).pnl_pct)

/-- Aggregates of a memory agree with the spec's exact recomputation from
its trade log. -/
def MemAgg (m : StrategyMemory) : Prop :=
  ∀ a, m.success_rates.get a = specSuccessRate m.trades a ∧
       m.avg_pnl.get a = specAvgPnl m.trades a

/-- Every HOLD record of a trade log carries zero PnL. -/
def HoldOk (ts : List TradeRecord) : Prop :=
  ∀ t ∈ ts, t.side = TradeSide.HOLD → t.pnl_pct = 0

/-- The spec's market signal used by the scoring step: the override when
provided, the computed market signal otherwise. -/
def specBias (s : StatefulSwapStrategy) (p : ℚ) (ov : Option ℚ) : ℚ :=
  ov.getD (s.market_signal p)

/-- The spec's buy score: average PnL of past USDC to ETH trades plus the
market signal. -/
def specBuyScore (s : StatefulSwapStrategy) (p : ℚ) (ov : Option ℚ) : ℚ :=
  s.memory.avg_pnl.get TradeSide.USDC_TO_ETH + specBias s p ov

/-- The spec's sell score: average PnL of past ETH to USDC trades minus
the market signal. -/
def specSellScore (s : StatefulSwapStrategy) (p : ℚ) (ov : Option ℚ) : ℚ :=
  s.memory.avg_pnl.get TradeSide.ETH_TO_USDC - specBias s p ov

/-- A concrete trade record used in the compaction counterexample. -/
def mkRec (i : ℕ) (p : ℚ) : TradeRecord :=
  ⟨(i : ℚ), TradeSide.USDC_TO_ETH, 0, 0, p⟩

/-- Eleven trades whose highest PnL sits at position 0, chronologically
first; all others have strictly smaller PnL. -/
def cexTrades : List TradeRecord :=
  [mkRec 0 100, mkRec 1 1, mkRec 2 2, mkRec 3 3, mkRec 4 4, mkRec 5 5,
   mkRec 6 6, mkRec 7 7, mkRec 8 8, mkRec 9 9, mkRec 10 10]

/-- A memory over `cexTrades` with `max_trades_kept = 10`, so that a
compaction fires at time 200 (cooldown 120 elapsed since 0). -/
def cexMem : StrategyMemory :=
  { trades := cexTrades
    success_rates := SideMap.zero
    avg_pnl := SideMap.zero
    max_trades_kept := 10
    last_summary_at := 0
    summary_cooldown_sec := 120 }

/-! ### Helper lemmas on lists -/

lemma getD_mem {α : Type} (d : α) :
    ∀ (l : List α) (i : ℕ), i < l.length → l.getD i d ∈ l := by
  intro l
  induction l with
  | nil => intro i h; simp at h
  | cons x xs ih =>
    intro i h
    cases i with
    | zero => simp [List.getD]
    | succ j =>
      simp only [List.getD_cons_succ]
      exact List.mem_cons_of_mem x (ih j (by simpa using h))

lemma mem_drop_of_getD {α : Type} (d : α) :
    ∀ (l : List α) (k i : ℕ), k ≤ i → i < l.length → l.getD i d ∈ l.drop k := by
  intro l
  induction l with
  | nil => intro k i _ h; simp at h
  | cons x xs ih =>
    intro k i hk hi
    cases k with
    | zero => exact getD_mem d (x :: xs) i hi
    | succ k' =>
      cases i with
      | zero => omega
      | succ i' =>
        simp only [List.getD_cons_succ, List.drop_succ_cons]
        exact ih k' i' (by omega) (by simpa using hi)

lemma self_mem_drop_append {α : Type} (r : α) :
    ∀ (xs : List α) (k : ℕ), k ≤ xs.length → r ∈ (xs ++ [r]).drop k := by
  intro xs
  induction xs with
  | nil =>
    intro k hk
    have hk0 : k = 0 := by simpa using hk
    subst hk0
    simp
  | cons x xs' ih =>
    intro k hk
    cases k with
    | zero => simp
    | succ k' =>
      simp only [List.cons_append, List.drop_succ_cons]
      exact ih k' (by simpa using hk)

lemma filter_map_length_pos (ts : List TradeRecord) (a : TradeSide) :
    ((sidePnls ts a).filter (fun x => decide (0 < x))).length = winCount ts a := by
  unfold sidePnls winCount
  induction ts with
  | nil => simp
  | cons t ts ih =>
    by_cases hs : t.side = a
    · by_cases hp : (0:ℚ) < t.pnl_pct <;>
        simp [List.filter_cons, hs, hp, ih]
    · simp [List.filter_cons, hs, ih]

lemma sidePnls_length (ts : List TradeRecord) (a : TradeSide) :
    (sidePnls ts a).length = sideCount ts a := by
  simp [sidePnls, sideCount]

lemma sidePnls_sum (ts : List TradeRecord) (a : TradeSide) :
    (sidePnls ts a).sum = sideSum ts a := rfl

/-! ### Aggregate recomputation lemmas -/

lemma metrics_spec (ts : List TradeRecord) (a : TradeSide) :
    metricsFromList (sidePnls ts a) = (specSuccessRate ts a, specAvgPnl ts a) := by
  unfold metricsFromList specSuccessRate specAvgPnl
  by_cases h : sidePnls ts a = []
  · have hc : sideCount ts a = 0 := by rw [← sidePnls_length, h]; rfl
    simp [h, hc]
  · have hc : sideCount ts a ≠ 0 := by
      rw [← sidePnls_length]
      exact Nat.pos_iff_ne_zero.1 (List.length_pos.2 h)
    simp [List.isEmpty_iff, h, hc, filter_map_length_pos, sidePnls_length, sidePnls_sum]

lemma update_metrics_trades (m : StrategyMemory) :
    m.update_metrics.trades = m.trades := by
  unfold StrategyMemory.update_metrics
  split <;> rfl

lemma update_metrics_success (m : StrategyMemory) (a : TradeSide) :
    m.update_metrics.success_rates.get a = specSuccessRate m.trades a := by
  by_cases h : m.trades = []
  · cases a <;>
      simp [StrategyMemory.update_metrics, h, SideMap.get, SideMap.zero,
        specSuccessRate, sideCount]
  · cases a <;>
      simp [StrategyMemory.update_metrics, List.isEmpty_iff, h, SideMap.get, metrics_spec]

lemma update_metrics_avg (m : StrategyMemory) (a : TradeSide) :
    m.update_metrics.avg_pnl.get a = specAvgPnl m.trades a := by
  by_cases h : m.trades = []
  · cases a <;>
      simp [StrategyMemory.update_metrics, h, SideMap.get, SideMap.zero,
        specAvgPnl, sideCount]
  · cases a <;>
      simp [StrategyMemory.update_metrics, List.isEmpty_iff, h, SideMap.get, metrics_spec]

lemma memAgg_update (m : StrategyMemory) : MemAgg m.update_metrics := by
  intro a
  rw [update_metrics_trades] at *
  exact ⟨by rw [update_metrics_success], by rw [update_metrics_avg]⟩

/-! ### Structural lemmas on the operations -/

lemma decide_snd (s : StatefulSwapStrategy) (p pe pu : ℚ) (ov : Option ℚ) :
    (s.decide p pe pu ov).2 = { s with last_price := some p } := by
  unfold StatefulSwapStrategy.decide
  split
  · rfl
  · dsimp only
    split
    · split
      · rfl
      · split <;> rfl
    · split <;> [rfl; (split <;> rfl)]

lemma summarize_eq_of_small (m : StrategyMemory) (now : ℚ)
    (h : m.trades.length ≤ m.max_trades_kept) :
    m.summarize_if_needed now = m := by
  unfold StrategyMemory.summarize_if_needed
  rw [if_pos h]

lemma summarize_eq_of_cooldown (m : StrategyMemory) (now : ℚ)
    (h1 : ¬ m.trades.length ≤ m.max_trades_kept)
    (h2 : now - m.last_summary_at < m.summary_cooldown_sec) :
    m.summarize_if_needed now = m := by
  unfold StrategyMemory.summarize_if_needed
  rw [if_neg h1, if_pos h2]

lemma summarize_fire_trades (m : StrategyMemory) (now : ℚ)
    (h1 : m.max_trades_kept < m.trades.length)
    (h2 : m.summary_cooldown_sec ≤ now - m.last_summary_at) :
    (m.summarize_if_needed now).trades =
      if firstBestIdx m.trades < m.trades.length - 10
      then m.trades.drop (m.trades.length - 10) ++
        [m.trades.getD (firstBestIdx m.trades) dummyRecord]
      else m.trades.drop (m.trades.length - 10) := by
  unfold StrategyMemory.summarize_if_needed
  rw [if_neg (by omega), if_neg (not_lt.2 h2)]
  dsimp only
  rw [update_metrics_trades]

/-! ### Properties of the first-best index -/

lemma firstBestIdx_cons (t : TradeRecord) (ts : List TradeRecord) :
    firstBestIdx (t :: ts) =
      if ts.isEmpty then 0
      else if (ts.getD (firstBestIdx ts) dummyRecord).pnl_pct ≤ t.pnl_pct then 0
      else firstBestIdx ts + 1 := rfl

lemma firstBestIdx_lt : ∀ ts : List TradeRecord, ts ≠ [] → firstBestIdx ts < ts.length := by
  intro ts
  induction ts with
  | nil => intro h; exact absurd rfl h
  | cons t ts ih =>
    intro _
    rw [firstBestIdx_cons]
    by_cases h0 : ts.isEmpty
    · rw [if_pos h0]; simp
    · rw [if_neg h0]
      by_cases hle : (ts.getD (firstBestIdx ts) dummyRecord).pnl_pct ≤ t.pnl_pct
      · rw [if_pos hle]; simp
      · rw [if_neg hle]
        have hlen := ih (by simpa [List.isEmpty_iff] using h0)
        simp only [List.length_cons]
        omega

lemma firstBestIdx_max :
    ∀ ts : List TradeRecord, ∀ x ∈ ts,
      x.pnl_pct ≤ (ts.getD (firstBestIdx ts) dummyRecord).pnl_pct := by
  intro ts
  induction ts with
  | nil => intro x hx; simp at hx
  | cons t ts ih =>
    intro x hx
    rw [firstBestIdx_cons]
    by_cases h0 : ts.isEmpty
    · have hts : ts = [] := List.isEmpty_iff.1 h0
      subst hts
      have hx' : x = t := by simpa using hx
      subst hx'
      simp
    · rw [if_neg h0]
      by_cases hle : (ts.getD (firstBestIdx ts) dummyRecord).pnl_pct ≤ t.pnl_pct
      · rw [if_pos hle, List.getD_cons_zero]
        rcases List.mem_cons.1 hx with hx' | hx'
        · subst hx'; exact le_refl _
        · exact le_trans (ih x hx') hle
      · rw [if_neg hle, List.getD_cons_succ]
        rcases List.mem_cons.1 hx with hx' | hx'
        · subst hx'; exact le_of_not_le hle
        · exact ih x hx'

lemma firstBestIdx_first :
    ∀ ts : List TradeRecord, ∀ j, j < firstBestIdx ts →
      (ts.getD j dummyRecord).pnl_pct <
        (ts.getD (firstBestIdx ts) dummyRecord).pnl_pct := by
  intro ts
  induction ts with
  | nil => intro j hj; simp [firstBestIdx] at hj
  | cons t ts ih =>
    intro j hj
    rw [firstBestIdx_cons] at hj ⊢
    by_cases h0 : ts.isEmpty
    · rw [if_pos h0] at hj; omega
    · rw [if_neg h0] at hj ⊢
      by_cases hle : (ts.getD (firstBestIdx ts) dummyRecord).pnl_pct ≤ t.pnl_pct
      · rw [if_pos hle] at hj; omega
      · rw [if_neg hle] at hj ⊢
        rw [List.getD_cons_succ]
        cases j with
        | zero =>
          rw [List.getD_cons_zero]
          exact lt_of_not_le hle
        | succ j' =>
          rw [List.getD_cons_succ]
          exact ih j' (by omega)

/-! ### Invariant preservation -/

lemma summarize_subset (m : StrategyMemory) (now : ℚ) :
    ∀ t ∈ (m.summarize_if_needed now).trades, t ∈ m.trades := by
  intro t ht
  by_cases hlen : m.trades.length ≤ m.max_trades_kept
  · rw [summarize_eq_of_small m now hlen] at ht; exact ht
  · by_cases hcd : now - m.last_summary_at < m.summary_cooldown_sec
    · rw [summarize_eq_of_cooldown m now hlen hcd] at ht; exact ht
    · rw [summarize_fire_trades m now (by omega) (not_lt.1 hcd)] at ht
      by_cases hbi : firstBestIdx m.trades < m.trades.length - 10
      · rw [if_pos hbi] at ht
        rcases List.mem_append.1 ht with h1 | h1
        · exact List.mem_of_mem_drop h1
        · have h2 : t = m.trades.getD (firstBestIdx m.trades) dummyRecord := by
            simpa using h1
          rw [h2]
          exact getD_mem dummyRecord m.trades (firstBestIdx m.trades) (by omega)
      · rw [if_neg hbi] at ht
        exact List.mem_of_mem_drop ht

lemma summarize_memAgg (m : StrategyMemory) (now : ℚ) (h : MemAgg m) :
    MemAgg (m.summarize_if_needed now) := by
  by_cases hlen : m.trades.length ≤ m.max_trades_kept
  · rw [summarize_eq_of_small m now hlen]; exact h
  · by_cases hcd : now - m.last_summary_at < m.summary_cooldown_sec
    · rw [summarize_eq_of_cooldown m now hlen hcd]; exact h
    · unfold StrategyMemory.summarize_if_needed
      rw [if_neg hlen, if_neg hcd]
      dsimp only
      intro a
      exact memAgg_update _ a

lemma holdOk_append (ts : List TradeRecord) (r : TradeRecord) (h : HoldOk ts)
    (hr : r.side = TradeSide.HOLD → r.pnl_pct = 0) : HoldOk (ts ++ [r]) := by
  intro t ht hside
  rcases List.mem_append.1 ht with h1 | h1
  · exact h t h1 hside
  · have h2 : t = r := by simpa using h1
    subst h2
    exact hr hside

lemma holdOk_subset (ts ts' : List TradeRecord) (hsub : ∀ t ∈ ts', t ∈ ts)
    (h : HoldOk ts) : HoldOk ts' :=
  fun t ht hside => h t (hsub t ht) hside

lemma reachable_inv (s : StatefulSwapStrategy) (h : Reachable s) :
    MemAgg s.memory ∧ HoldOk s.memory.trades := by
  induction h with
  | init th oc mk =>
    constructor
    · intro a
      cases a <;>
        simp [mkStrategy, mkMemory, SideMap.zero, SideMap.get,
          specSuccessRate, specAvgPnl, sideCount]
    · intro t ht _
      simp [mkStrategy, mkMemory] at ht
  | observe s p v _ ih => exact ih
  | decide s p pe pu ov _ ih =>
    rw [decide_snd]
    exact ih
  | record s side ep xp sz t1 t2 _ ih =>
    refine ⟨summarize_memAgg _ _ (memAgg_update _), ?_⟩
    have hsub := summarize_subset
      ({ s.memory with
          trades := s.memory.trades ++
            [TradeRecord.mk t1 side xp sz (tradePnl side ep xp)] }.update_metrics) t2
    rw [update_metrics_trades] at hsub
    refine holdOk_subset _ _ hsub ?_
    refine holdOk_append _ _ ih.2 ?_
    intro hside
    simp only at hside
    subst hside
    rfl

lemma market_bias_eq (s : StatefulSwapStrategy) (p : ℚ) (ov : Option ℚ) :
    s.market_bias p ov = specBias s p ov := by
  cases ov <;> rfl

lemma winCount_le_sideCount (ts : List TradeRecord) (a : TradeSide) :
    winCount ts a ≤ sideCount ts a :=
  List.length_filter_le _ _

lemma specSuccessRate_nonneg (ts : List TradeRecord) (a : TradeSide) :
    0 ≤ specSuccessRate ts a := by
  unfold specSuccessRate
  split
  · exact le_refl 0
  · positivity

lemma specSuccessRate_le_one (ts : List TradeRecord) (a : TradeSide) :
    specSuccessRate ts a ≤ 1 := by
  unfold specSuccessRate
  split
  · exact zero_le_one
  · rename_i hc
    rw [div_le_one (by exact_mod_cast Nat.pos_of_ne_zero hc)]
    exact_mod_cast winCount_le_sideCount ts a

lemma clamp_eq (x : ℚ) : max (min x (2/100)) (-(2/100)) = specClamp x := by
  unfold specClamp
  by_cases h1 : x < -(2/100)
  · rw [if_pos h1, min_eq_left (by linarith), max_eq_right h1.le]
  · rw [if_neg h1]
    by_cases h2 : (2/100 : ℚ) < x
    · rw [if_pos h2, min_eq_right h2.le]
      exact max_eq_left (by norm_num)
    · rw [if_neg h2, min_eq_left (not_lt.1 h2)]
      exact max_eq_left (not_lt.1 h1)

/-! ### HOLD-side aggregates -/

lemma winCount_hold_zero (ts : List TradeRecord) (h : HoldOk ts) :
    winCount ts TradeSide.HOLD = 0 := by
  unfold winCount
  rw [List.length_eq_zero, List.filter_eq_nil_iff]
  intro t ht
  have hside : t.side = TradeSide.HOLD := by simpa using List.of_mem_filter ht
  have hz := h t (List.mem_of_mem_filter ht) hside
  simp [hz]

lemma sideSum_hold_zero (ts : List TradeRecord) (h : HoldOk ts) :
    sideSum ts TradeSide.HOLD = 0 := by
  unfold sideSum
  apply List.sum_eq_zero
  intro x hx
  rcases List.mem_map.1 hx with ⟨t, ht, hxe⟩
  rw [← hxe]
  have hside : t.side = TradeSide.HOLD := by simpa using List.of_mem_filter ht
  exact h t (List.mem_of_mem_filter ht) hside

lemma specSuccessRate_hold_zero (ts : List TradeRecord) (h : HoldOk ts) :
    specSuccessRate ts TradeSide.HOLD = 0 := by
  unfold specSuccessRate
  split
  · rfl
  · rw [winCount_hold_zero ts h]
    simp

lemma specAvgPnl_hold_zero (ts : List TradeRecord) (h : HoldOk ts) :
    specAvgPnl ts TradeSide.HOLD = 0 := by
  unfold specAvgPnl
  split
  · rfl
  · rw [sideSum_hold_zero ts h]
    simp

/-! ### The freshly appended record survives recording -/

lemma rec_mem_trades (s : StatefulSwapStrategy) (side : TradeSide)
    (ep xp sz t1 t2 : ℚ) :
    TradeRecord.mk t1 side xp sz (tradePnl side ep xp) ∈
      (s.record_trade_outcome side ep xp sz t1 t2).memory.trades := by
  show TradeRecord.mk t1 side xp sz (tradePnl side ep xp) ∈
    (({ s.memory with trades := s.memory.trades ++
        [TradeRecord.mk t1 side xp sz (tradePnl side ep xp)] }.update_metrics).summarize_if_needed
      t2).trades
  by_cases hlen : ({ s.memory with trades := s.memory.trades ++
      [TradeRecord.mk t1 side xp sz (tradePnl side ep xp)] }.update_metrics).trades.length ≤
      ({ s.memory with trades := s.memory.trades ++
      [TradeRecord.mk t1 side xp sz (tradePnl side ep xp)] }.update_metrics).max_trades_kept
  · rw [summarize_eq_of_small _ _ hlen, update_metrics_trades]
    exact List.mem_append_right _ (by simp)
  · by_cases hcd : t2 - ({ s.memory with trades := s.memory.trades ++
        [TradeRecord.mk t1 side xp sz (tradePnl side ep xp)] }.update_metrics).last_summary_at <
        ({ s.memory with trades := s.memory.trades ++
        [TradeRecord.mk t1 side xp sz (tradePnl side ep xp)] }.update_metrics).summary_cooldown_sec
    · rw [summarize_eq_of_cooldown _ _ hlen hcd, update_metrics_trades]
      exact List.mem_append_right _ (by simp)
    · rw [summarize_fire_trades _ _ (by omega) (not_lt.1 hcd)]
      rw [update_metrics_trades]
      dsimp only
      by_cases hbi : firstBestIdx (s.memory.trades ++
          [TradeRecord.mk t1 side xp sz (tradePnl side ep xp)]) <
          (s.memory.trades ++ [TradeRecord.mk t1 side xp sz (tradePnl side ep xp)]).length - 10
      · rw [if_pos hbi]
        refine List.mem_append_left _ ?_
        apply self_mem_drop_append
        simp only [List.length_append, List.length_cons, List.length_nil]
        omega
      · rw [if_neg hbi]
        apply self_mem_drop_append
        simp only [List.length_append, List.length_cons, List.length_nil]
        omega

/-! ### Concrete evaluation of the compaction counterexample -/

lemma cex_h1 : cexMem.max_trades_kept < cexMem.trades.length := by
  norm_num [cexMem, cexTrades]

lemma cex_h2 : cexMem.summary_cooldown_sec ≤ 200 - cexMem.last_summary_at := by
  norm_num [cexMem]

lemma cex_fbi : firstBestIdx cexTrades = 0 := by
  norm_num [cexTrades, firstBestIdx_cons, mkRec, dummyRecord]

lemma cex_trades_result :
    (cexMem.summarize_if_needed 200).trades =
      [mkRec 1 1, mkRec 2 2, mkRec 3 3, mkRec 4 4, mkRec 5 5,
       mkRec 6 6, mkRec 7 7, mkRec 8 8, mkRec 9 9, mkRec 10 10, mkRec 0 100] := by
  rw [summarize_fire_trades cexMem 200 cex_h1 cex_h2]
  show (if firstBestIdx cexTrades < cexTrades.length - 10
      then cexTrades.drop (cexTrades.length - 10) ++
        [cexTrades.getD (firstBestIdx cexTrades) dummyRecord]
      else cexTrades.drop (cexTrades.length - 10)) = _
  rw [cex_fbi]
  norm_num [cexTrades]

lemma update_metrics_max (m : StrategyMemory) :
    m.update_metrics.max_trades_kept = m.max_trades_kept := by
  unfold StrategyMemory.update_metrics
  split <;> rfl

lemma c8_avg :
    ((mkStrategy 0 0 100).record_trade_outcome TradeSide.USDC_TO_ETH
      3000 3100 1 0 0).memory.avg_pnl.get TradeSide.USDC_TO_ETH = (1/30 : ℚ) := by
  show (({ (mkStrategy 0 0 100).memory with trades := (mkStrategy 0 0 100).memory.trades ++
      [TradeRecord.mk 0 TradeSide.USDC_TO_ETH 3100 1
        (tradePnl TradeSide.USDC_TO_ETH 3000 3100)] }.update_metrics).summarize_if_needed
      0).avg_pnl.get TradeSide.USDC_TO_ETH = (1/30 : ℚ)
  rw [summarize_eq_of_small _ _ (by
    rw [update_metrics_trades, update_metrics_max]
    norm_num [mkStrategy, mkMemory])]
  rw [update_metrics_avg]
  norm_num [mkStrategy, mkMemory, specAvgPnl, sideSum, sideCount, tradePnl, List.filter]

lemma c8_success :
    ((mkStrategy 0 0 100).record_trade_outcome TradeSide.USDC_TO_ETH
      3000 3100 1 0 0).memory.success_rates.get TradeSide.USDC_TO_ETH = (1 : ℚ) := by
  show (({ (mkStrategy 0 0 100).memory with trades := (mkStrategy 0 0 100).memory.trades ++
      [TradeRecord.mk 0 TradeSide.USDC_TO_ETH 3100 1
        (tradePnl TradeSide.USDC_TO_ETH 3000 3100)] }.update_metrics).summarize_if_needed
      0).success_rates.get TradeSide.USDC_TO_ETH = (1 : ℚ)
  rw [summarize_eq_of_small _ _ (by
    rw [update_metrics_trades, update_metrics_max]
    norm_num [mkStrategy, mkMemory])]
  rw [update_metrics_success]
  norm_num [mkStrategy, mkMemory, specSuccessRate, winCount, sideCount, tradePnl, List.filter]

/-! ### Claim theorems -/

/-- Claim C1: in every state reachable through the public interface, for
every action, the stored success rate equals the exact win fraction over
records with that side and the stored average PnL equals the exact mean
(both 0 for empty sides), and the success rate lies in [0, 1]. -/
theorem aggregates_always_exact (s : StatefulSwapStrategy) (h : Reachable s)
    (a : TradeSide) :
    s.memory.success_rates.get a = specSuccessRate s.memory.trades a ∧
    s.memory.avg_pnl.get a = specAvgPnl s.memory.trades a ∧
    0 ≤ s.memory.success_rates.get a ∧ s.memory.success_rates.get a ≤ 1 := by
  obtain ⟨hagg, _⟩ := reachable_inv s h
  obtain ⟨h1, h2⟩ := hagg a
  exact ⟨h1, h2, h1 ▸ specSuccessRate_nonneg _ _, h1 ▸ specSuccessRate_le_one _ _⟩

/-- Witness for C1 at a state with one recorded trade. -/
theorem aggregates_always_exact_witness :
    ((mkStrategy 0 0 100).record_trade_outcome TradeSide.USDC_TO_ETH
      3000 3100 1 0 0).memory.success_rates.get TradeSide.USDC_TO_ETH =
      specSuccessRate ((mkStrategy 0 0 100).record_trade_outcome TradeSide.USDC_TO_ETH
        3000 3100 1 0 0).memory.trades TradeSide.USDC_TO_ETH ∧
    ((mkStrategy 0 0 100).record_trade_outcome TradeSide.USDC_TO_ETH
      3000 3100 1 0 0).memory.avg_pnl.get TradeSide.USDC_TO_ETH =
      specAvgPnl ((mkStrategy 0 0 100).record_trade_outcome TradeSide.USDC_TO_ETH
        3000 3100 1 0 0).memory.trades TradeSide.USDC_TO_ETH ∧
    0 ≤ ((mkStrategy 0 0 100).record_trade_outcome TradeSide.USDC_TO_ETH
      3000 3100 1 0 0).memory.success_rates.get TradeSide.USDC_TO_ETH ∧
    ((mkStrategy 0 0 100).record_trade_outcome TradeSide.USDC_TO_ETH
      3000 3100 1 0 0).memory.success_rates.get TradeSide.USDC_TO_ETH ≤ 1 :=
  aggregates_always_exact _
    (Reachable.record _ _ _ _ _ _ _ (Reachable.init 0 0 100)) TradeSide.USDC_TO_ETH

/-- Claim C3: while the warmup counter is below the warmup target,
`decide` returns HOLD for every price, both balances, any memory contents
and any override signal. -/
theorem warmup_always_hold (s : StatefulSwapStrategy) (p pe pu : ℚ) (ov : Option ℚ)
    (h : s.observed_cycles < s.observe_cycles_before_trade) :
    (s.decide p pe pu ov).1 = TradeSide.HOLD := by
  unfold StatefulSwapStrategy.decide
  rw [if_pos h]

/-- Witness for C3 on a fresh strategy with warmup target 3. -/
theorem warmup_always_hold_witness :
    ((mkStrategy 0 3 100).decide 3000 1 1 none).1 = TradeSide.HOLD :=
  warmup_always_hold _ 3000 1 1 none (by simp [mkStrategy])

/-- Claim C4: with warmup complete and a non-positive threshold, `decide`
returns USDC_TO_ETH exactly when the buy score beats the sell score and
the USDC balance is positive, ETH_TO_USDC exactly when the sell score
beats the buy score and the ETH balance is positive, and HOLD otherwise
(ties included); the scores use the override bias when given, the
computed market signal otherwise. -/
theorem threshold_disabled_decision (s : StatefulSwapStrategy) (p pe pu : ℚ)
    (ov : Option ℚ)
    (hw : s.observe_cycles_before_trade ≤ s.observed_cycles)
    (ht : s.rebalance_threshold ≤ 0) :
    ((s.decide p pe pu ov).1 = TradeSide.USDC_TO_ETH ↔
      specBuyScore s p ov > specSellScore s p ov ∧ pu > 0) ∧
    ((s.decide p pe pu ov).1 = TradeSide.ETH_TO_USDC ↔
      specSellScore s p ov > specBuyScore s p ov ∧ pe > 0) ∧
    ((s.decide p pe pu ov).1 = TradeSide.HOLD ↔
      ¬(specBuyScore s p ov > specSellScore s p ov ∧ pu > 0) ∧
      ¬(specSellScore s p ov > specBuyScore s p ov ∧ pe > 0)) := by
  unfold StatefulSwapStrategy.decide
  rw [if_neg (not_lt.2 hw)]
  dsimp only
  rw [if_pos ht]
  simp only [specBuyScore, specSellScore, ← market_bias_eq]
  by_cases c1 : s.memory.avg_pnl.get TradeSide.USDC_TO_ETH + s.market_bias p ov >
      s.memory.avg_pnl.get TradeSide.ETH_TO_USDC - s.market_bias p ov ∧ pu > 0
  · rw [if_pos c1]
    have hnot : ¬ (s.memory.avg_pnl.get TradeSide.ETH_TO_USDC - s.market_bias p ov >
        s.memory.avg_pnl.get TradeSide.USDC_TO_ETH + s.market_bias p ov ∧ pe > 0) :=
      fun hc => (lt_asymm c1.1) hc.1
    simp [c1, hnot]
  · rw [if_neg c1]
    by_cases c2 : s.memory.avg_pnl.get TradeSide.ETH_TO_USDC - s.market_bias p ov >
        s.memory.avg_pnl.get TradeSide.USDC_TO_ETH + s.market_bias p ov ∧ pe > 0
    · rw [if_pos c2]
      simp [c1, c2]
    · rw [if_neg c2]
      simp [c1, c2]

/-- Witness for C4 on a fresh strategy with a positive override bias. -/
theorem threshold_disabled_decision_witness :
    (((mkStrategy 0 0 100).decide 3000 1 1 (some (1/100))).1 = TradeSide.USDC_TO_ETH ↔
      specBuyScore (mkStrategy 0 0 100) 3000 (some (1/100)) >
        specSellScore (mkStrategy 0 0 100) 3000 (some (1/100)) ∧ (1:ℚ) > 0) ∧
    (((mkStrategy 0 0 100).decide 3000 1 1 (some (1/100))).1 = TradeSide.ETH_TO_USDC ↔
      specSellScore (mkStrategy 0 0 100) 3000 (some (1/100)) >
        specBuyScore (mkStrategy 0 0 100) 3000 (some (1/100)) ∧ (1:ℚ) > 0) ∧
    (((mkStrategy 0 0 100).decide 3000 1 1 (some (1/100))).1 = TradeSide.HOLD ↔
      ¬(specBuyScore (mkStrategy 0 0 100) 3000 (some (1/100)) >
        specSellScore (mkStrategy 0 0 100) 3000 (some (1/100)) ∧ (1:ℚ) > 0) ∧
      ¬(specSellScore (mkStrategy 0 0 100) 3000 (some (1/100)) >
        specBuyScore (mkStrategy 0 0 100) 3000 (some (1/100)) ∧ (1:ℚ) > 0)) :=
  threshold_disabled_decision (mkStrategy 0 0 100) 3000 1 1 (some (1/100))
    (le_refl _) (le_refl _)

/-- Claim C5: with warmup complete and a positive threshold, `decide`
returns HOLD when the score gap is below the threshold, and otherwise
trades in the direction of the larger score with no balance check, for
all portfolio balances. -/
theorem threshold_gated_decision (s : StatefulSwapStrategy) (p pe pu : ℚ)
    (ov : Option ℚ)
    (hw : s.observe_cycles_before_trade ≤ s.observed_cycles)
    (ht : 0 < s.rebalance_threshold) :
    (|specBuyScore s p ov - specSellScore s p ov| < s.rebalance_threshold →
      (s.decide p pe pu ov).1 = TradeSide.HOLD) ∧
    (s.rebalance_threshold ≤ |specBuyScore s p ov - specSellScore s p ov| →
      (s.decide p pe pu ov).1 =
        if specBuyScore s p ov > specSellScore s p ov then TradeSide.USDC_TO_ETH
        else TradeSide.ETH_TO_USDC) := by
  unfold StatefulSwapStrategy.decide
  rw [if_neg (not_lt.2 hw)]
  dsimp only
  rw [if_neg (not_le.2 ht)]
  simp only [specBuyScore, specSellScore, ← market_bias_eq]
  constructor
  · intro hd
    rw [if_pos hd]
  · intro hd
    rw [if_neg (not_lt.2 hd)]
    by_cases hc : s.memory.avg_pnl.get TradeSide.USDC_TO_ETH + s.market_bias p ov >
        s.memory.avg_pnl.get TradeSide.ETH_TO_USDC - s.market_bias p ov
    · rw [if_pos hc, if_pos hc]
    · rw [if_neg hc, if_neg hc]

/-- Witness for C5 on a fresh strategy with threshold 1/100 and zero
scores, with both balances positive. -/
theorem threshold_gated_decision_witness :
    (|specBuyScore (mkStrategy (1/100) 0 100) 3000 (some 0) -
        specSellScore (mkStrategy (1/100) 0 100) 3000 (some 0)| <
        (mkStrategy (1/100) 0 100).rebalance_threshold →
      ((mkStrategy (1/100) 0 100).decide 3000 5 7 (some 0)).1 = TradeSide.HOLD) ∧
    ((mkStrategy (1/100) 0 100).rebalance_threshold ≤
        |specBuyScore (mkStrategy (1/100) 0 100) 3000 (some 0) -
          specSellScore (mkStrategy (1/100) 0 100) 3000 (some 0)| →
      ((mkStrategy (1/100) 0 100).decide 3000 5 7 (some 0)).1 =
        if specBuyScore (mkStrategy (1/100) 0 100) 3000 (some 0) >
            specSellScore (mkStrategy (1/100) 0 100) 3000 (some 0)
        then TradeSide.USDC_TO_ETH else TradeSide.ETH_TO_USDC) :=
  threshold_gated_decision (mkStrategy (1/100) 0 100) 3000 5 7 (some 0)
    (le_refl _) (by norm_num [mkStrategy])

/-- Claim C6: the market signal is 0 with no last-seen price, otherwise
the relative change against the last price (0 for a non-positive last
price) clamped to [-0.02, 0.02]; at last price 3000 and new price 3100 it
is exactly 0.02. -/
theorem market_signal_spec (s : StatefulSwapStrategy) (p : ℚ) :
    s.market_signal p =
      (match s.last_price with
       | none => 0
       | some lp => specClamp (if 0 < lp then (p - lp) / lp else 0)) ∧
    StatefulSwapStrategy.market_signal
      { mkStrategy 0 0 100 with last_price := some 3000 } 3100 = (2/100 : ℚ) := by
  constructor
  · cases hlp : s.last_price with
    | none => simp [StatefulSwapStrategy.market_signal, hlp]
    | some lp =>
      simp only [StatefulSwapStrategy.market_signal, hlp]
      exact clamp_eq _
  · simp only [StatefulSwapStrategy.market_signal]
    rw [if_pos (by norm_num)]
    rw [clamp_eq]
    norm_num [specClamp]

/-- Claim C7: whenever a compaction fires, the new log has at most 11
records, the pre-compaction record with the globally highest PnL bounds
every record's PnL, and that record is still present in the new log. -/
theorem compaction_bound_and_best_present (m : StrategyMemory) (now : ℚ)
    (h1 : m.max_trades_kept < m.trades.length)
    (h2 : m.summary_cooldown_sec ≤ now - m.last_summary_at) :
    (m.summarize_if_needed now).trades.length ≤ 11 ∧
    (∀ t ∈ m.trades,
      t.pnl_pct ≤ (m.trades.getD (firstBestIdx m.trades) dummyRecord).pnl_pct) ∧
    m.trades.getD (firstBestIdx m.trades) dummyRecord ∈
      (m.summarize_if_needed now).trades := by
  have hne : m.trades ≠ [] := by
    intro h
    rw [h] at h1
    simp at h1
  have htr := summarize_fire_trades m now h1 h2
  refine ⟨?_, firstBestIdx_max _, ?_⟩
  · rw [htr]
    by_cases hbi : firstBestIdx m.trades < m.trades.length - 10
    · rw [if_pos hbi]
      simp only [List.length_append, List.length_drop, List.length_cons,
        List.length_nil]
      omega
    · rw [if_neg hbi]
      simp only [List.length_drop]
      omega
  · rw [htr]
    by_cases hbi : firstBestIdx m.trades < m.trades.length - 10
    · rw [if_pos hbi]
      exact List.mem_append_right _ (by simp)
    · rw [if_neg hbi]
      exact mem_drop_of_getD dummyRecord m.trades _ _ (not_lt.1 hbi)
        (firstBestIdx_lt _ hne)

/-- Witness for C7 at the concrete firing compaction over `cexMem`. -/
theorem compaction_bound_and_best_present_witness :
    (cexMem.summarize_if_needed 200).trades.length ≤ 11 ∧
    (∀ t ∈ cexMem.trades,
      t.pnl_pct ≤ (cexMem.trades.getD (firstBestIdx cexMem.trades) dummyRecord).pnl_pct) ∧
    cexMem.trades.getD (firstBestIdx cexMem.trades) dummyRecord ∈
      (cexMem.summarize_if_needed 200).trades :=
  compaction_bound_and_best_present cexMem 200 cex_h1 cex_h2

/-- Claim C2 is false as stated: at `cexMem` a compaction fires, the new
log is a permutation of the claimed retained set (all eleven records),
but the records are not in their original relative chronological order —
the best record is moved behind the ten most recent ones. -/
theorem compaction_order_cex :
    cexMem.max_trades_kept < cexMem.trades.length ∧
    cexMem.summary_cooldown_sec ≤ 200 - cexMem.last_summary_at ∧
    List.Perm (cexMem.summarize_if_needed 200).trades cexMem.trades ∧
    (cexMem.summarize_if_needed 200).trades ≠ cexMem.trades := by
  refine ⟨cex_h1, cex_h2, ?_, ?_⟩
  · rw [cex_trades_result]
    show List.Perm
      ([mkRec 1 1, mkRec 2 2, mkRec 3 3, mkRec 4 4, mkRec 5 5,
        mkRec 6 6, mkRec 7 7, mkRec 8 8, mkRec 9 9, mkRec 10 10] ++ [mkRec 0 100])
      ([mkRec 0 100] ++ [mkRec 1 1, mkRec 2 2, mkRec 3 3, mkRec 4 4, mkRec 5 5,
        mkRec 6 6, mkRec 7 7, mkRec 8 8, mkRec 9 9, mkRec 10 10])
    exact List.perm_append_comm
  · rw [cex_trades_result]
    intro h
    simp only [cexMem, cexTrades, mkRec, List.cons.injEq, TradeRecord.mk.injEq] at h
    norm_num at h

/-- Claim C2 (amended): whenever a compaction fires, the new log is the
last ten records in their original order, followed by the record with
the highest PnL (first-encountered on ties) appended at the end when its
position is before the last-ten window, and nothing else when it already
lies in that window. -/
theorem compaction_keeps_recent_then_best (m : StrategyMemory) (now : ℚ)
    (h1 : m.max_trades_kept < m.trades.length)
    (h2 : m.summary_cooldown_sec ≤ now - m.last_summary_at) :
    IsFirstMax m.trades (firstBestIdx m.trades) ∧
    (m.summarize_if_needed now).trades =
      (if firstBestIdx m.trades < m.trades.length - 10
       then m.trades.drop (m.trades.length - 10) ++
         [m.trades.getD (firstBestIdx m.trades) dummyRecord]
       else m.trades.drop (m.trades.length - 10)) := by
  have hne : m.trades ≠ [] := by
    intro h
    rw [h] at h1
    simp at h1
  exact ⟨⟨firstBestIdx_lt _ hne, firstBestIdx_max _, fun j hj => firstBestIdx_first _ j hj⟩,
    summarize_fire_trades m now h1 h2⟩

/-- Witness for the amended C2 at the concrete firing compaction. -/
theorem compaction_keeps_recent_then_best_witness :
    IsFirstMax cexMem.trades (firstBestIdx cexMem.trades) ∧
    (cexMem.summarize_if_needed 200).trades =
      (if firstBestIdx cexMem.trades < cexMem.trades.length - 10
       then cexMem.trades.drop (cexMem.trades.length - 10) ++
         [cexMem.trades.getD (firstBestIdx cexMem.trades) dummyRecord]
       else cexMem.trades.drop (cexMem.trades.length - 10)) :=
  compaction_keeps_recent_then_best cexMem 200 cex_h1 cex_h2

/-- Claim C8: the recorded PnL fraction matches the spec formula for
each side (0 for HOLD and for non-positive entry prices), the appended
record survives into the log, and one USDC_TO_ETH outcome at entry 3000
and exit 3100 on a fresh strategy yields average PnL 1/30 and success
rate 1. -/
theorem record_trade_outcome_pnl_spec (s : StatefulSwapStrategy) (side : TradeSide)
    (ep xp sz t1 t2 : ℚ) :
    tradePnl side ep xp = specPnl side ep xp ∧
    TradeRecord.mk t1 side xp sz (tradePnl side ep xp) ∈
      (s.record_trade_outcome side ep xp sz t1 t2).memory.trades ∧
    ((mkStrategy 0 0 100).record_trade_outcome TradeSide.USDC_TO_ETH
      3000 3100 1 0 0).memory.avg_pnl.get TradeSide.USDC_TO_ETH = (1/30 : ℚ) ∧
    ((mkStrategy 0 0 100).record_trade_outcome TradeSide.USDC_TO_ETH
      3000 3100 1 0 0).memory.success_rates.get TradeSide.USDC_TO_ETH = (1 : ℚ) := by
  refine ⟨?_, rec_mem_trades s side ep xp sz t1 t2, c8_avg, c8_success⟩
  cases side with
  | ETH_TO_USDC =>
    simp only [tradePnl, specPnl]
    by_cases h : (0:ℚ) < ep
    · rw [if_pos h, if_neg (not_le.2 h)]
    · rw [if_neg h, if_pos (not_lt.1 h)]
  | USDC_TO_ETH =>
    simp only [tradePnl, specPnl]
    by_cases h : (0:ℚ) < ep
    · rw [if_pos h, if_neg (not_le.2 h)]
    · rw [if_neg h, if_pos (not_lt.1 h)]
  | HOLD => rfl

/-- Claim C9: `decide` sets the last-seen price to its price argument on
every return path and leaves the memory, the threshold, the warmup
target and the warmup counter unchanged. -/
theorem decide_updates_only_last_price (s : StatefulSwapStrategy) (p pe pu : ℚ)
    (ov : Option ℚ) :
    (s.decide p pe pu ov).2.last_price = some p ∧
    (s.decide p pe pu ov).2.memory = s.memory ∧
    (s.decide p pe pu ov).2.rebalance_threshold = s.rebalance_threshold ∧
    (s.decide p pe pu ov).2.observe_cycles_before_trade =
      s.observe_cycles_before_trade ∧
    (s.decide p pe pu ov).2.observed_cycles = s.observed_cycles := by
  rw [decide_snd]
  exact ⟨rfl, rfl, rfl, rfl, rfl⟩

/-- Claim C10: in every reachable state the HOLD entries of both
aggregate maps are 0, and every HOLD record in the log carries zero
PnL. -/
theorem hold_aggregates_zero (s : StatefulSwapStrategy) (h : Reachable s) :
    s.memory.success_rates.get TradeSide.HOLD = 0 ∧
    s.memory.avg_pnl.get TradeSide.HOLD = 0 ∧
    ∀ t ∈ s.memory.trades, t.side = TradeSide.HOLD → t.pnl_pct = 0 := by
  obtain ⟨hagg, hhold⟩ := reachable_inv s h
  obtain ⟨h1, h2⟩ := hagg TradeSide.HOLD
  refine ⟨?_, ?_, hhold⟩
  · rw [h1]
    exact specSuccessRate_hold_zero _ hhold
  · rw [h2]
    exact specAvgPnl_hold_zero _ hhold

/-- Witness for C10 at a state with one recorded HOLD outcome. -/
theorem hold_aggregates_zero_witness :
    ((mkStrategy 0 0 100).record_trade_outcome TradeSide.HOLD
      3000 2900 1 0 0).memory.success_rates.get TradeSide.HOLD = 0 ∧
    ((mkStrategy 0 0 100).record_trade_outcome TradeSide.HOLD
      3000 2900 1 0 0).memory.avg_pnl.get TradeSide.HOLD = 0 ∧
    ∀ t ∈ ((mkStrategy 0 0 100).record_trade_outcome TradeSide.HOLD
      3000 2900 1 0 0).memory.trades, t.side = TradeSide.HOLD → t.pnl_pct = 0 :=
  hold_aggregates_zero _ (Reachable.record _ _ _ _ _ _ _ (Reachable.init 0 0 100))
